import Mathlib

/-!
Verification of the static-file storage layer of the repository
(`crates/storage/provider/src/providers/static_file/manager.rs`).

The development shallowly embeds the data model and the operations of the
`StaticFileProvider` manager:

* pure lookup/indexing helpers (`find_fixed_range`,
  `get_segment_ranges_from_block`, `get_segment_ranges_from_transaction`)
  become Lean functions over `Nat` block/transaction numbers;
* the four in-memory index structures become a `StaticFileIndex` record;
* the on-disk state is a per-segment list of jar headers (`Disk`), following
  the `SegmentHeader` layout (expected/fixed block range encoded in the file
  name, and the actual block/transaction ranges recorded in the header);
* fallible operations return `Except ProviderErr _`, with `ProviderErr`
  mirroring the `ProviderError` variants the manager produces.

Support code that lives in other crates of the repository
(`reth_static_file_types::find_fixed_range`, `iter_static_files`, the
`NippyJar` loader and the per-jar cursor) is modelled from the spec; each such
definition carries a doc comment starting with `Modelled from the spec:`.
Everything else is translated directly from `manager.rs`.
-/

/-- The static file segment kinds (`StaticFileSegment` in
`reth_static_file_types`): Headers, Transactions, Receipts, `BlockMeta`. -/
inductive StaticFileSegment where
  | headers
  | transactions
  | receipts
  | blockMeta
  deriving DecidableEq, Repr

/-- `StaticFileSegment::is_tx_based`: transactions and receipts are indexed by
transaction number. -/
def StaticFileSegment.is_tx_based : StaticFileSegment → Bool
  | .transactions => true
  | .receipts => true
  | _ => false

/-- `StaticFileSegment::is_block_based`: headers and block meta are indexed by
block number. -/
def StaticFileSegment.is_block_based : StaticFileSegment → Bool
  | .headers => true
  | .blockMeta => true
  | _ => false

/-- `StaticFileSegment::is_headers`. -/
def StaticFileSegment.is_headers : StaticFileSegment → Bool
  | .headers => true
  | _ => false

/-- `StaticFileSegment::is_receipts`. -/
def StaticFileSegment.is_receipts : StaticFileSegment → Bool
  | .receipts => true
  | _ => false

/-- `StaticFileSegment::is_block_meta`. -/
def StaticFileSegment.is_block_meta : StaticFileSegment → Bool
  | .blockMeta => true
  | _ => false

/-- A closed interval of block (or transaction) numbers,
`SegmentRangeInclusive { start, end }`. `lo` is `start()`, `hi` is `end()`. -/
structure SegmentRangeInclusive where
  lo : Nat
  hi : Nat
  deriving DecidableEq, Repr

/-- Modelled from the spec: `find_fixed_range` of `reth_static_file_types`
(only a delegating wrapper is under `src/`): for blocks-per-file `B`,
`find_fixed_range(block) = [block - block % B, block - block % B + B - 1]`. -/
def find_fixed_range (block : Nat) (blocks_per_file : Nat) : SegmentRangeInclusive :=
  ⟨block - block % blocks_per_file, block - block % blocks_per_file + blocks_per_file - 1⟩

/-- Claim C4: for every block number `b` and blocks-per-file constant `B > 0`,
`find_fixed_range b B` is the closed interval `[b - b % B, b - b % B + B - 1]`;
its start is at most `b`, `b` is at most its end, the range is exactly `B`
blocks wide, and the ranges tile the block-number line with no gaps and no
overlaps: an arbitrary block `n` lies inside `find_fixed_range b B` exactly
when `find_fixed_range` assigns `n` the very same range. -/
theorem find_fixed_range_spec (b B : Nat) (hB : 0 < B) :
    (find_fixed_range b B).lo = b - b % B ∧
    (find_fixed_range b B).hi = b - b % B + B - 1 ∧
    (find_fixed_range b B).lo ≤ b ∧
    b ≤ (find_fixed_range b B).hi ∧
    (find_fixed_range b B).hi + 1 - (find_fixed_range b B).lo = B ∧
    (∀ n : Nat,
      ((find_fixed_range b B).lo ≤ n ∧ n ≤ (find_fixed_range b B).hi) ↔
        find_fixed_range n B = find_fixed_range b B) := by
  obtain ⟨q, r, rfl, hrlt⟩ : ∃ q r, q * B + r = b ∧ r < B :=
    ⟨b / B, b % B, Nat.div_add_mod' b B, Nat.mod_lt b hB⟩
  have hm : (q * B + r) % B = r := by
    rw [Nat.mul_comm, Nat.mul_add_mod, Nat.mod_eq_of_lt hrlt]
  simp only [find_fixed_range, hm]
  refine ⟨by trivial, by trivial, by omega, by omega, by omega, ?_⟩
  intro n
  obtain ⟨p, s, rfl, hslt⟩ : ∃ p s, p * B + s = n ∧ s < B :=
    ⟨n / B, n % B, Nat.div_add_mod' n B, Nat.mod_lt n hB⟩
  have hn : (p * B + s) % B = s := by
    rw [Nat.mul_comm, Nat.mul_add_mod, Nat.mod_eq_of_lt hslt]
  simp only [find_fixed_range, hn, SegmentRangeInclusive.mk.injEq]
  constructor
  · rintro ⟨h1, h2⟩
    -- the two blocks share the same `B`-aligned base: `p = q`.
    have hpq : p = q := by
      have hc1 : ¬ q + 1 ≤ p := by
        intro hc
        have := Nat.mul_le_mul_right B hc
        have he : (q + 1) * B = q * B + B := by ring
        omega
      have hc2 : ¬ p + 1 ≤ q := by
        intro hc
        have := Nat.mul_le_mul_right B hc
        have he : (p + 1) * B = p * B + B := by ring
        omega
      omega
    subst hpq
    omega
  · rintro ⟨h1, h2⟩
    omega

/-- Witness for C4 at `b = 7`, `B = 5`. -/
theorem find_fixed_range_spec_witness :
    (0 < 5) ∧
    ((find_fixed_range 7 5).lo = 7 - 7 % 5 ∧
     (find_fixed_range 7 5).hi = 7 - 7 % 5 + 5 - 1 ∧
     (find_fixed_range 7 5).lo ≤ 7 ∧
     7 ≤ (find_fixed_range 7 5).hi ∧
     (find_fixed_range 7 5).hi + 1 - (find_fixed_range 7 5).lo = 5 ∧
     (∀ n : Nat,
       ((find_fixed_range 7 5).lo ≤ n ∧ n ≤ (find_fixed_range 7 5).hi) ↔
         find_fixed_range n 5 = find_fixed_range 7 5)) :=
  ⟨by decide, find_fixed_range_spec 7 5 (by decide)⟩

/-- The `ProviderError` variants produced by the manager's code paths that the
claims exercise. `other` stands for `ProviderError::other(..)` wrapping an
external error (e.g. a failed `NippyJar::load`). `fuelExhausted` is a modelling
artifact used only to truncate the source's unbounded `loop` (the theorems
always supply sufficient fuel, so it never occurs in a proved execution). -/
inductive ProviderErr where
  | missingStaticFileBlock (segment : StaticFileSegment) (block : Nat)
  | missingStaticFileTx (segment : StaticFileSegment) (tx : Nat)
  | readOnlyStaticFileAccess
  | other
  | fuelExhausted
  deriving DecidableEq, Repr

/-- A prune operation performed on a segment writer inside
`ensure_invariants` (`writer.prune_headers` / `prune_receipts` /
`prune_transactions`). -/
inductive PruneAction where
  | pruneHeaders (n : Nat)
  | pruneReceipts (n : Nat) (target_block : Nat)
  | pruneTransactions (n : Nat) (target_block : Nat)
  deriving DecidableEq, Repr

/-- Observable outcome of one `ensure_invariants` call: the returned unwind
target, the prune operations issued to the segment writer, and whether
`writer.commit()` was invoked. -/
structure EnsureResult where
  unwind : Option Nat
  prunes : List PruneAction
  committed : Bool
  deriving DecidableEq, Repr

/-- The slice of the database provider that `ensure_invariants` consumes for
one segment: the first and last key of the corresponding table (via
`db_cursor.first()` / `db_cursor.last()`), the stage checkpoint for the
segment's stage (`provider.get_stage_checkpoint(..)`), and
`provider.block_body_indices(b)` reduced to its `last_tx_num()`. -/
structure DbView where
  table_first : Option Nat
  table_last : Option Nat
  checkpoint : Option Nat
  bbi_last_tx : Nat → Option Nat

/-- Tail of `ensure_invariants`: the stage-checkpoint comparison. If the
checkpoint is ahead of the static file, request an unwind to the static-file
block; if it is behind, prune the extra static-file rows and commit. -/
def ensure_invariants_checkpoint (db : DbView) (segment : StaticFileSegment)
    (highest_static_file_entry : Option Nat)
    (highest_static_file_block : Option Nat)
    (read_only : Bool) : Except ProviderErr EnsureResult :=
  let highest_static_file_entry := highest_static_file_entry.getD 0
  let highest_static_file_block := highest_static_file_block.getD 0
  let checkpoint_block_number := db.checkpoint.getD 0
  if checkpoint_block_number > highest_static_file_block then
    .ok ⟨some highest_static_file_block, [], false⟩
  else if checkpoint_block_number < highest_static_file_block then
    -- `self.latest_writer(segment)?` fails in read-only mode
    if read_only then .error .readOnlyStaticFileAccess
    else
      let prunes : List PruneAction :=
        if segment.is_headers then
          [.pruneHeaders (highest_static_file_block - checkpoint_block_number)]
        else
          match db.bbi_last_tx checkpoint_block_number with
          | some last_tx_num =>
            if segment.is_receipts then
              [.pruneReceipts (highest_static_file_entry - last_tx_num)
                checkpoint_block_number]
            else
              [.pruneTransactions (highest_static_file_entry - last_tx_num)
                checkpoint_block_number]
          | none => []
      .ok ⟨none, prunes, true⟩
  else
    .ok ⟨none, [], false⟩

/-- Continuation of `ensure_invariants` after the gap check, still inside the
`db_cursor.first()` `Some` branch: `if let Some((db_last_entry, _)) =
db_cursor.last()?` — the database being ahead of the static files needs no
unwind. -/
def ensure_invariants_after_gap (db : DbView) (segment : StaticFileSegment)
    (highest_static_file_entry : Option Nat)
    (highest_static_file_block : Option Nat)
    (read_only : Bool) : Except ProviderErr EnsureResult :=
  match db.table_last with
  | some db_last_entry =>
    if match highest_static_file_entry with
       | none => true
       | some highest_entry => db_last_entry > highest_entry then
      .ok ⟨none, [], false⟩
    else
      ensure_invariants_checkpoint db segment highest_static_file_entry
        highest_static_file_block read_only
  | none =>
    ensure_invariants_checkpoint db segment highest_static_file_entry
      highest_static_file_block read_only

/-- `StaticFileProvider::ensure_invariants` (manager.rs lines 923-1019),
with the I/O effects reified: `read_only` is `self.access.is_read_only()`
(`latest_writer` fails with `ReadOnlyStaticFileAccess` in read-only mode), and
the writer prune/commit calls are recorded in the returned `EnsureResult`. -/
def ensure_invariants (db : DbView) (segment : StaticFileSegment)
    (highest_static_file_entry : Option Nat)
    (highest_static_file_block : Option Nat)
    (read_only : Bool) : Except ProviderErr EnsureResult :=
  -- `if let Some((db_first_entry, _)) = db_cursor.first()?`
  match db.table_first with
  | some db_first_entry =>
    match highest_static_file_entry, highest_static_file_block with
    | some highest_entry, some highest_block =>
      -- gap between static file and database: unwind to the static file block
      if ¬(db_first_entry ≤ highest_entry ∨ highest_entry + 1 = db_first_entry) then
        .ok ⟨some highest_block, [], false⟩
      else
        ensure_invariants_after_gap db segment highest_static_file_entry
          highest_static_file_block read_only
    | _, _ =>
      ensure_invariants_after_gap db segment highest_static_file_entry
        highest_static_file_block read_only
  | none =>
    ensure_invariants_checkpoint db segment highest_static_file_entry
      highest_static_file_block read_only

/-- Claim C1: for a segment with highest static-file entry `E` and highest
static-file block `H`, when the corresponding database table's first key `F`
is neither `≤ E` nor equal to `E + 1` (a gap), `ensure_invariants` returns the
unwind target `H` (and performs no prune or commit). -/
theorem ensure_invariants_gap_unwinds (db : DbView) (segment : StaticFileSegment)
    (E H F : Nat) (read_only : Bool)
    (hF : db.table_first = some F)
    (hgap : ¬(F ≤ E ∨ E + 1 = F)) :
    ensure_invariants db segment (some E) (some H) read_only =
      .ok ⟨some H, [], false⟩ := by
  simp [ensure_invariants, hF, hgap]

/-- Witness for C1: the spec's example, static file height 100 (both entry and
block) with the database table starting at 150. -/
theorem ensure_invariants_gap_unwinds_witness :
    (⟨some 150, some 200, some 100, fun _ => none⟩ : DbView).table_first = some 150 ∧
    ¬((150 : Nat) ≤ 100 ∨ (100 : Nat) + 1 = 150) ∧
    ensure_invariants ⟨some 150, some 200, some 100, fun _ => none⟩
      .headers (some 100) (some 100) false = .ok ⟨some 100, [], false⟩ :=
  ⟨rfl, by decide,
    ensure_invariants_gap_unwinds ⟨some 150, some 200, some 100, fun _ => none⟩
      .headers 100 100 150 false rfl (by decide)⟩

/-- Counterexample for claim C2. Receipts segment with highest static-file
entry `E = 5` and highest block `H = 10`; database table holds only key 1 (no
gap, last entry `1 ≤ E`), stage checkpoint `C = 3 < H`, but the database has
no block-body-indices entry for block 3. The claim demands that the static
file be pruned down to `C = 3`; the code issues no prune at all — it only
commits — because the prune amount for transaction-based segments is derived
from `block_body_indices(C)`, which is absent. -/
theorem ensure_invariants_missing_bbi_counterexample :
    ensure_invariants ⟨some 1, some 1, some 3, fun _ => none⟩
      .receipts (some 5) (some 10) false = .ok ⟨none, [], true⟩ := rfl

/-- Claim C2 (amended): for a segment with no gap against its database table
(`F ≤ E ∨ E + 1 = F`) and whose database last entry does not exceed the
static-file highest entry (`L ≤ E`): if the stage-checkpoint block `C` exceeds
the highest static-file block `H`, `ensure_invariants` returns `Some H`; if
`C < H` it commits after pruning and returns no unwind target, where the prune
removes `H - C` header rows for the headers segment, and for transaction-based
segments removes `E - last_tx_num(C)` rows (down to block `C`) when
`block_body_indices(C)` exists in the database — when it is absent, no rows
are pruned (the commit still happens). -/
theorem ensure_invariants_checkpoint_cases (db : DbView)
    (segment : StaticFileSegment) (E H F L C : Nat)
    (hF : db.table_first = some F)
    (hL : db.table_last = some L)
    (hC : db.checkpoint = some C)
    (hnogap : F ≤ E ∨ E + 1 = F)
    (hle : L ≤ E) :
    (C > H →
      ensure_invariants db segment (some E) (some H) false =
        .ok ⟨some H, [], false⟩) ∧
    (C < H → segment.is_headers = true →
      ensure_invariants db segment (some E) (some H) false =
        .ok ⟨none, [.pruneHeaders (H - C)], true⟩) ∧
    (C < H → segment.is_headers = false → ∀ t, db.bbi_last_tx C = some t →
      ensure_invariants db segment (some E) (some H) false =
        .ok ⟨none,
          [if segment.is_receipts then .pruneReceipts (E - t) C
           else .pruneTransactions (E - t) C], true⟩) ∧
    (C < H → segment.is_headers = false → db.bbi_last_tx C = none →
      ensure_invariants db segment (some E) (some H) false =
        .ok ⟨none, [], true⟩) := by
  have hstep : ensure_invariants db segment (some E) (some H) false =
      ensure_invariants_checkpoint db segment (some E) (some H) false := by
    simp only [ensure_invariants, hF]
    rw [if_neg (by
      intro hcon
      exact hcon hnogap)]
    simp only [ensure_invariants_after_gap, hL]
    rw [if_neg (by simp; omega)]
  refine ⟨?_, ?_, ?_, ?_⟩
  · intro hgt
    rw [hstep]
    simp only [ensure_invariants_checkpoint, hC, Option.getD_some]
    rw [if_pos hgt]
  · intro hlt hh
    rw [hstep]
    simp only [ensure_invariants_checkpoint, hC, Option.getD_some]
    rw [if_neg (by omega), if_pos hlt]
    simp [hh]
  · intro hlt hh t ht
    rw [hstep]
    simp only [ensure_invariants_checkpoint, hC, Option.getD_some]
    rw [if_neg (by omega), if_pos hlt]
    simp only [hh, Bool.false_eq_true, if_false, ht]
    split <;> rfl
  · intro hlt hh ht
    rw [hstep]
    simp only [ensure_invariants_checkpoint, hC, Option.getD_some]
    rw [if_neg (by omega), if_pos hlt]
    simp [hh, ht]

/-- Witness for C2 (amended) following the spec's example: headers segment at
height 200, stage checkpoint 150 — the writer prunes 50 rows and no unwind
target is returned. -/
theorem ensure_invariants_checkpoint_cases_witness :
    ((150 : Nat) > 200 →
      ensure_invariants ⟨some 1, some 1, some 150, fun _ => none⟩ .headers
        (some 200) (some 200) false = .ok ⟨some 200, [], false⟩) ∧
    ((150 : Nat) < 200 → StaticFileSegment.headers.is_headers = true →
      ensure_invariants ⟨some 1, some 1, some 150, fun _ => none⟩ .headers
        (some 200) (some 200) false =
        .ok ⟨none, [.pruneHeaders (200 - 150)], true⟩) ∧
    ((150 : Nat) < 200 → StaticFileSegment.headers.is_headers = false →
      ∀ t, (fun (_ : Nat) => (none : Option Nat)) 150 = some t →
      ensure_invariants ⟨some 1, some 1, some 150, fun _ => none⟩ .headers
        (some 200) (some 200) false =
        .ok ⟨none,
          [if StaticFileSegment.headers.is_receipts then
            .pruneReceipts (200 - t) 150
           else .pruneTransactions (200 - t) 150], true⟩) ∧
    ((150 : Nat) < 200 → StaticFileSegment.headers.is_headers = false →
      (fun (_ : Nat) => (none : Option Nat)) 150 = none →
      ensure_invariants ⟨some 1, some 1, some 150, fun _ => none⟩ .headers
        (some 200) (some 200) false = .ok ⟨none, [], true⟩) :=
  ensure_invariants_checkpoint_cases ⟨some 1, some 1, some 150, fun _ => none⟩
    .headers 200 200 1 1 150 rfl rfl rfl (by decide) (by decide)

/-- The ordered `tx_end → block_range` map of one segment
(`BTreeMap<TxNumber, SegmentRangeInclusive>` in `SegmentRanges`), modelled as
an association list in ascending key order. -/
def TxIndexMap := List (Nat × SegmentRangeInclusive)

/-- The loop body of `get_segment_ranges_from_transaction`: the ordered map is
iterated from the highest `tx_end` downwards (`.iter().rev().peekable()`), so
the argument list here is the map in descending key order. `tx_start` is the
peeked next-lower entry's `tx_end + 1`, or 0 at the lowest entry. -/
def tx_ranges_walk (blocks_per_file tx : Nat) :
    List (Nat × SegmentRangeInclusive) → Option SegmentRangeInclusive
  | [] => none
  | (tx_end, block_range) :: rest =>
    if tx > tx_end then none
    else
      let tx_start := match rest.head? with
        | some (prev_end, _) => prev_end + 1
        | none => 0
      if tx_start ≤ tx then some (find_fixed_range block_range.hi blocks_per_file)
      else tx_ranges_walk blocks_per_file tx rest

/-- `StaticFileProvider::get_segment_ranges_from_transaction` (manager.rs
lines 561-584): resolves a transaction number to the fixed block range of the
static file holding it, through `static_files_tx_index`. -/
def get_segment_ranges_from_transaction (blocks_per_file : Nat)
    (tx_index : StaticFileSegment → Option (List (Nat × SegmentRangeInclusive)))
    (segment : StaticFileSegment) (tx : Nat) : Option SegmentRangeInclusive :=
  match tx_index segment with
  | none => none
  | some entries => tx_ranges_walk blocks_per_file tx entries.reverse

/-- The reverse walk skips every leading entry whose successor (in descending
order) still has `tx_end ≥ tx`. -/
theorem tx_ranges_walk_append (B tx : Nat)
    (l₁ l₂ : List (Nat × SegmentRangeInclusive))
    (h₁ : ∀ e ∈ l₁, tx ≤ e.1)
    (h₂ : ∀ e, l₂.head? = some e → tx ≤ e.1) (hne : l₂ ≠ []) :
    tx_ranges_walk B tx (l₁ ++ l₂) = tx_ranges_walk B tx l₂ := by
  induction l₁ with
  | nil => rfl
  | cons hd tl ih =>
    obtain ⟨ke, re⟩ := hd
    have hke : tx ≤ ke := h₁ (ke, re) (by simp)
    simp only [List.cons_append, tx_ranges_walk]
    rw [if_neg (by omega)]
    simp only [List.append_eq]
    have hnext : ∀ pe, (tl ++ l₂).head? = some pe → tx ≤ pe.1 := by
      intro pe hpe
      cases tl with
      | nil => exact h₂ pe (by simpa using hpe)
      | cons h2 t2 =>
        have : h2 = pe := by simpa using hpe
        subst this
        exact h₁ h2 (by simp)
    have hcons : ∃ pe rest, tl ++ l₂ = pe :: rest := by
      cases htl : tl ++ l₂ with
      | nil =>
        exfalso
        rcases List.append_eq_nil.mp htl with ⟨-, h⟩
        exact hne h
      | cons pe rest => exact ⟨pe, rest, rfl⟩
    obtain ⟨pe, rest, hpe⟩ := hcons
    have hpele : tx ≤ pe.1 := hnext pe (by rw [hpe]; rfl)
    rw [hpe]
    simp only [List.head?_cons]
    rw [if_neg (by obtain ⟨a, b⟩ := pe; simp at hpele ⊢; omega)]
    rw [← hpe]
    exact ih (fun e he => h₁ e (List.mem_cons_of_mem _ he))

/-- Claim C5: `get_segment_ranges_from_transaction` returns `none` when the
segment has no index entries or `tx` is greater than the largest `tx_end` in
the segment's ordered `tx_end → block_range` map; otherwise it returns the
fixed range of the entry whose `tx_end ≥ tx` while every lower entry has
`tx_end < tx`. -/
theorem get_segment_ranges_from_transaction_spec (B : Nat)
    (tx_index : StaticFileSegment → Option (List (Nat × SegmentRangeInclusive)))
    (segment : StaticFileSegment) (tx : Nat) :
    (tx_index segment = none →
      get_segment_ranges_from_transaction B tx_index segment tx = none) ∧
    (tx_index segment = some [] →
      get_segment_ranges_from_transaction B tx_index segment tx = none) ∧
    (∀ entries k₀ r₀, tx_index segment = some entries →
      entries.getLast? = some (k₀, r₀) → k₀ < tx →
      get_segment_ranges_from_transaction B tx_index segment tx = none) ∧
    (∀ entries pre k r post, tx_index segment = some entries →
      entries.Pairwise (fun a b => a.1 < b.1) →
      entries = pre ++ (k, r) :: post → tx ≤ k → (∀ p ∈ pre, p.1 < tx) →
      get_segment_ranges_from_transaction B tx_index segment tx =
        some (find_fixed_range r.hi B)) := by
  refine ⟨?_, ?_, ?_, ?_⟩
  · intro h
    simp [get_segment_ranges_from_transaction, h]
  · intro h
    simp [get_segment_ranges_from_transaction, h, tx_ranges_walk]
  · intro entries k₀ r₀ hidx hlast hgt
    simp only [get_segment_ranges_from_transaction, hidx]
    have hhead : entries.reverse.head? = some (k₀, r₀) := by
      rw [List.head?_reverse]
      exact hlast
    obtain ⟨rest, hrev⟩ : ∃ rest, entries.reverse = (k₀, r₀) :: rest := by
      cases h : entries.reverse with
      | nil => rw [h] at hhead; exact absurd hhead (by simp)
      | cons a l =>
        rw [h] at hhead
        simp only [List.head?_cons, Option.some.injEq] at hhead
        exact ⟨l, by rw [hhead]⟩
    rw [hrev]
    simp only [tx_ranges_walk]
    rw [if_pos (by omega)]
  · intro entries pre k r post hidx hsorted hsplit htx hpre
    simp only [get_segment_ranges_from_transaction, hidx, hsplit]
    have hrev : (pre ++ (k, r) :: post).reverse =
        post.reverse ++ ((k, r) :: pre.reverse) := by
      simp
    rw [hrev]
    have hpost : ∀ e ∈ post, k < e.1 := by
      rw [hsplit] at hsorted
      have := (List.pairwise_append.mp hsorted).1
      have hcons := List.pairwise_cons.mp
        ((List.pairwise_append.mp hsorted).2.1)
      exact fun e he => hcons.1 e he
    rw [tx_ranges_walk_append B tx _ _
      (by
        intro e he
        have := hpost e (List.mem_reverse.mp he)
        omega)
      (by
        intro e he
        simp only [List.head?_cons, Option.some.injEq] at he
        subst he
        exact htx)
      (by simp)]
    simp only [tx_ranges_walk]
    rw [if_neg (by omega)]
    cases hp : pre.reverse with
    | nil => simp
    | cons p rest =>
      have hpmem : p ∈ pre := by
        have : p ∈ pre.reverse := by rw [hp]; simp
        exact List.mem_reverse.mp this
      have := hpre p hpmem
      simp only [List.head?_cons]
      obtain ⟨pk, pr⟩ := p
      simp only at this
      rw [if_pos (by omega)]

/-- Witness for C5: a transactions index with two files, tx ends 9 and 19,
queried at tx 12 — resolved to the second file's fixed range. -/
theorem get_segment_ranges_from_transaction_spec_witness :
    ((fun s => if s = StaticFileSegment.transactions then
        some [((9 : Nat), SegmentRangeInclusive.mk 0 4), (19, ⟨5, 9⟩)]
      else none) StaticFileSegment.transactions =
        some [(9, ⟨0, 4⟩), (19, ⟨5, 9⟩)]) ∧
    ([((9 : Nat), SegmentRangeInclusive.mk 0 4), (19, ⟨5, 9⟩)].Pairwise
      (fun a b => a.1 < b.1)) ∧
    (∀ p ∈ [((9 : Nat), SegmentRangeInclusive.mk 0 4)], p.1 < 12) ∧
    get_segment_ranges_from_transaction 5
      (fun s => if s = StaticFileSegment.transactions then
        some [(9, ⟨0, 4⟩), (19, ⟨5, 9⟩)] else none)
      .transactions 12 = some (find_fixed_range 9 5) :=
  ⟨by decide, by decide, by decide,
    (get_segment_ranges_from_transaction_spec 5
      (fun s => if s = StaticFileSegment.transactions then
        some [(9, ⟨0, 4⟩), (19, ⟨5, 9⟩)] else none)
      .transactions 12).2.2.2
      [(9, ⟨0, 4⟩), (19, ⟨5, 9⟩)] [(9, ⟨0, 4⟩)] 19 ⟨5, 9⟩ []
      (by decide) (by decide) rfl (by decide) (by decide)⟩

/-- The nested loops of `fetch_range_with_predicate` (manager.rs lines
1105-1176), recursing over the remaining numbers of the requested range.
`get_provider` re-resolves the static file that should hold a number (block-
or transaction-based); `get_fn` reads one row through the current file's
cursor; `predicate` terminates the fetch early. The source's `retrying` flag
is unrolled: on a miss the provider is re-resolved once and the row re-read;
a second miss for the same number aborts with the segment's missing-row
error. -/
def fetch_range_go {Jar T : Type}
    (segment : StaticFileSegment)
    (get_provider : Nat → Except ProviderErr Jar)
    (get_fn : Jar → Nat → Except ProviderErr (Option T))
    (predicate : T → Bool) :
    Jar → List Nat → Except ProviderErr (List T)
  | _, [] => .ok []
  | jar, number :: rest =>
    match get_fn jar number with
    | .error e => .error e
    | .ok (some res) =>
      if predicate res then
        -- `result.push(res)`, `break 'inner`, continue the outer loop
        match fetch_range_go segment get_provider get_fn predicate jar rest with
        | .ok l => .ok (res :: l)
        | .error e => .error e
      else .ok []
    | .ok none =>
      match get_provider number with
      | .error e => .error e
      | .ok jar' =>
        match get_fn jar' number with
        | .error e => .error e
        | .ok (some res) =>
          if predicate res then
            match fetch_range_go segment get_provider get_fn predicate jar' rest with
            | .ok l => .ok (res :: l)
            | .error e => .error e
          else .ok []
        | .ok none =>
          -- second consecutive miss for the same `number`: fail hard
          .error (if segment.is_block_based then
              .missingStaticFileBlock segment number
            else .missingStaticFileTx segment number)

/-- `StaticFileProvider::fetch_range_with_predicate` over the half-open range
`[range_start, range_end)`: the initial provider is resolved from
`range.start` and the numbers are visited in order. -/
def fetch_range_with_predicate {Jar T : Type}
    (segment : StaticFileSegment)
    (get_provider : Nat → Except ProviderErr Jar)
    (get_fn : Jar → Nat → Except ProviderErr (Option T))
    (predicate : T → Bool)
    (range_start range_end : Nat) : Except ProviderErr (List T) :=
  match get_provider range_start with
  | .error e => .error e
  | .ok jar =>
    fetch_range_go segment get_provider get_fn predicate jar
      (List.range' range_start (range_end - range_start))

/-- Claim C6: during a range fetch, if the row-fetching function misses twice
in a row for the same number — once on the current static file and once after
re-resolving the provider — the whole fetch aborts with
`MissingStaticFileBlock` for block-based segments and `MissingStaticFileTx`
for transaction-based ones; a single miss followed by a successful fetch on
the re-resolved file produces no error for that number (the fetch continues
on the new file with the row collected). -/
theorem fetch_range_double_miss {Jar T : Type} (segment : StaticFileSegment)
    (get_provider : Nat → Except ProviderErr Jar)
    (get_fn : Jar → Nat → Except ProviderErr (Option T))
    (predicate : T → Bool) (jar jar' : Jar) (n : Nat) (rest : List Nat)
    (h1 : get_fn jar n = .ok none)
    (h2 : get_provider n = .ok jar') :
    (get_fn jar' n = .ok none →
      fetch_range_go segment get_provider get_fn predicate jar (n :: rest) =
        .error (if segment.is_block_based then
            .missingStaticFileBlock segment n
          else .missingStaticFileTx segment n)) ∧
    (∀ v, get_fn jar' n = .ok (some v) → predicate v = true →
      fetch_range_go segment get_provider get_fn predicate jar (n :: rest) =
        (fetch_range_go segment get_provider get_fn predicate jar' rest).map
          (fun l => v :: l)) := by
  constructor
  · intro hmiss
    simp [fetch_range_go, h1, h2, hmiss]
  · intro v hhit hpred
    simp only [fetch_range_go, h1, h2, hhit, hpred, if_true]
    cases fetch_range_go segment get_provider get_fn predicate jar' rest with
    | ok l => rfl
    | error e => rfl

/-- Witness for C6: a two-file setup where file 0 misses row 5 and the
re-resolved file 1 serves it — the fetch collects the row and continues. -/
theorem fetch_range_double_miss_witness :
    ((fun (j : Nat) (n : Nat) =>
        if j = 0 then (.ok none : Except ProviderErr (Option Nat))
        else .ok (some n)) 0 5 = .ok none) ∧
    (((fun (_ : Nat) => (.ok 1 : Except ProviderErr Nat)) 5) = .ok 1) ∧
    (((fun (j : Nat) (n : Nat) =>
        if j = 0 then (.ok none : Except ProviderErr (Option Nat))
        else .ok (some n)) 1 5 = .ok none →
      fetch_range_go .headers (fun _ => .ok 1)
        (fun j n => if j = 0 then .ok none else .ok (some n))
        (fun _ => true) 0 [5] =
        .error (if StaticFileSegment.headers.is_block_based then
            .missingStaticFileBlock .headers 5
          else .missingStaticFileTx .headers 5)) ∧
    (∀ v, (fun (j : Nat) (n : Nat) =>
        if j = 0 then (.ok none : Except ProviderErr (Option Nat))
        else .ok (some n)) 1 5 = .ok (some v) → (fun (_ : Nat) => true) v = true →
      fetch_range_go .headers (fun _ => .ok 1)
        (fun j n => if j = 0 then .ok none else .ok (some n))
        (fun _ => true) 0 [5] =
        (fetch_range_go .headers (fun _ => .ok 1)
          (fun j n => if j = 0 then .ok none else .ok (some n))
          (fun _ => true) 1 []).map (fun l => v :: l))) :=
  ⟨rfl, rfl,
    fetch_range_double_miss .headers (fun _ => .ok 1)
      (fun j n => if j = 0 then .ok none else .ok (some n))
      (fun _ => true) 0 1 5 [] rfl rfl⟩

/-- The persisted `SegmentHeader` of one jar file: `expected_block_range` is
the fixed range the file is named after; `block_range` and `tx_range` are the
actual (possibly still filling) block and transaction ranges the file holds,
`none` when empty. -/
structure SegmentHeader where
  expected_block_range : SegmentRangeInclusive
  block_range : Option SegmentRangeInclusive
  tx_range : Option SegmentRangeInclusive
  deriving DecidableEq, Repr

/-- The static-file directory: the jar files of each segment, in ascending
block order (the order `iter_static_files` reports them in). -/
def Disk := StaticFileSegment → List SegmentHeader

/-- Modelled from the spec: `iter_static_files` (crate `reth_db`, not under
`src/`) lists per segment the block range and optional transaction range
recorded in each jar header, ascending; a file whose header holds no block
range contributes no row. -/
def iter_segment (jars : List SegmentHeader) :
    List (SegmentRangeInclusive × Option SegmentRangeInclusive) :=
  jars.filterMap (fun h => h.block_range.map (fun r => (r, h.tx_range)))

/-- Modelled from the spec: `NippyJar::load` opens the jar file of `segment`
named after the fixed block range `fixed`; `none` when no such file exists
(the manager maps that failure to `ProviderError::other`). -/
def load_jar (disk : Disk) (segment : StaticFileSegment)
    (fixed : SegmentRangeInclusive) : Option SegmentHeader :=
  (disk segment).find? (fun h => h.expected_block_range == fixed)

/-- The manager's four in-memory index structures: `static_files_min_block`,
`static_files_max_block`, `static_files_tx_index`, and
`earliest_history_height`. Maps are total functions into `Option` (`none` =
no entry for the segment). -/
@[ext]
structure StaticFileIndex where
  min_block : StaticFileSegment → Option SegmentRangeInclusive
  max_block : StaticFileSegment → Option Nat
  tx_index : StaticFileSegment → Option (List (Nat × SegmentRangeInclusive))
  earliest_history_height : Nat

/-- The freshly constructed provider's index: default-empty maps and
`earliest_history_height = 0`. -/
def empty_index : StaticFileIndex := ⟨fun _ => none, fun _ => none, fun _ => none, 0⟩

/-- `BTreeMap::insert` on the ascending association list. -/
def btree_insert (k : Nat) (v : SegmentRangeInclusive) :
    List (Nat × SegmentRangeInclusive) → List (Nat × SegmentRangeInclusive)
  | [] => [(k, v)]
  | (k', v') :: rest =>
    if k < k' then (k, v) :: (k', v') :: rest
    else if k = k' then (k, v) :: rest
    else (k', v') :: btree_insert k v rest

/-- The loop body of the `tx_end → block_range` index construction inside
`initialize_index`: one `BTreeMap` insert per jar holding a transaction
range, creating the map on first use (`Entry::Occupied` / `Entry::Vacant`). -/
def tx_index_step (acc : Option (List (Nat × SegmentRangeInclusive)))
    (p : SegmentRangeInclusive × Option SegmentRangeInclusive) :
    Option (List (Nat × SegmentRangeInclusive)) :=
  match p.2 with
  | some tx_range =>
    match acc with
    | some index => some (btree_insert tx_range.hi p.1 index)
    | none => some [(tx_range.hi, p.1)]
  | none => acc

/-- The `tx_end → block_range` index construction inside `initialize_index`
(manager.rs lines 685-699), folding `tx_index_step` over the listed jars. -/
def build_tx_index
    (ranges : List (SegmentRangeInclusive × Option SegmentRangeInclusive)) :
    Option (List (Nat × SegmentRangeInclusive)) :=
  ranges.foldl tx_index_step none

/-- `StaticFileProvider::initialize_index` (manager.rs lines 667-713). The
previous index is an argument because `earliest_history_height` is only
overwritten when a lowest transactions file exists; the three maps are
cleared and rebuilt from the on-disk jar headers. (The jar-handle cache
`self.map`, which is also cleared, holds open file handles and is outside
the four index structures modelled here.) -/
def initialize_index (idx : StaticFileIndex) (disk : Disk) : StaticFileIndex :=
  let min_block := fun segment => ((iter_segment (disk segment)).head?).map Prod.fst
  { min_block := min_block
    max_block := fun segment =>
      ((iter_segment (disk segment)).getLast?).map (fun p => p.1.hi)
    tx_index := fun segment => build_tx_index (iter_segment (disk segment))
    earliest_history_height :=
      match min_block .transactions with
      | some lowest_range => lowest_range.lo
      | none => idx.earliest_history_height }

/-- Claim C9: with no change to the on-disk static files in between, a second
`initialize_index` run recomputes exactly the same index contents — the call
is idempotent. -/
theorem initialize_index_idempotent (idx : StaticFileIndex) (disk : Disk) :
    initialize_index (initialize_index idx disk) disk =
      initialize_index idx disk := by
  simp only [initialize_index, StaticFileIndex.mk.injEq]
  refine ⟨trivial, trivial, trivial, ?_⟩
  cases h : ((iter_segment (disk .transactions)).head?).map Prod.fst with
  | some r => simp [h]
  | none => simp [h]

/-- `StaticFileProvider::update_index` (manager.rs lines 592-664), restricted
to the four index structures (the jar-handle cache insertion/retention on
`self.map` concerns open file handles, not the index).
`segment_max_block = none` means the segment has no static file left. -/
def update_index (blocks_per_file : Nat) (idx : StaticFileIndex) (disk : Disk)
    (segment : StaticFileSegment) (segment_max_block : Option Nat) :
    Except ProviderErr StaticFileIndex :=
  match segment_max_block with
  | some segment_max_block =>
    let max_block := fun s =>
      if s = segment then some segment_max_block else idx.max_block s
    let fixed_range := find_fixed_range segment_max_block blocks_per_file
    match load_jar disk segment fixed_range with
    | none => .error .other
    | some jar =>
      match jar.tx_range with
      | some tx_range =>
        let tx_end := tx_range.hi
        match jar.block_range with
        | some current_block_range =>
          -- drop every entry whose block start is at or above the current
          -- fixed range, then insert the latest entry
          let tx_index := fun s =>
            if s = segment then
              match idx.tx_index segment with
              | some index =>
                some (btree_insert tx_end current_block_range
                  (index.filter (fun p => p.2.lo < fixed_range.lo)))
              | none => some [(tx_end, current_block_range)]
            else idx.tx_index s
          .ok { idx with max_block := max_block, tx_index := tx_index }
        | none => .ok { idx with max_block := max_block }
      | none =>
        if segment.is_tx_based then
          -- fully unwound file: only retain entries below the current range,
          -- removing the map entirely when it becomes empty
          let tx_index := fun s =>
            if s = segment then
              match (idx.tx_index segment).map
                  (List.filter (fun p => p.2.lo < fixed_range.lo)) with
              | some index => if index = [] then none else some index
              | none => none
            else idx.tx_index s
          .ok { idx with max_block := max_block, tx_index := tx_index }
        else .ok { idx with max_block := max_block }
  | none =>
    .ok { idx with
      max_block := fun s => if s = segment then none else idx.max_block s,
      tx_index := fun s => if s = segment then none else idx.tx_index s }

/-- The transactions directory before a commit: one jar named `[0, 4]`
currently holding blocks 0-3 and transactions 0-7. -/
def tx_disk_before : Disk := fun s =>
  if s = .transactions then [⟨⟨0, 4⟩, some ⟨0, 3⟩, some ⟨0, 7⟩⟩] else []

/-- The same directory after the writer appends block 4 (transactions 8-9)
and commits: the jar header now records blocks 0-4 and transactions 0-9. -/
def tx_disk_after : Disk := fun s =>
  if s = .transactions then [⟨⟨0, 4⟩, some ⟨0, 4⟩, some ⟨0, 9⟩⟩] else []

/-- Counterexample for claim C3. With `blocks_per_file = 5`, the index is
initialized over a transactions jar holding blocks 0-3; the writer then
appends block 4 to the same jar and commits, calling
`update_index(Transactions, Some 4)`. `update_index` never touches
`static_files_min_block`, so the lowest-range entry stays `[0, 3]`, while a
fresh `initialize_index` over the same on-disk jar headers computes `[0, 4]`:
the four structures are not identical to a fresh recomputation. -/
theorem update_index_stale_min_counterexample :
    (update_index 5 (initialize_index empty_index tx_disk_before)
        tx_disk_after .transactions (some 4)).map
      (fun idx => idx.min_block .transactions) = .ok (some ⟨0, 3⟩) ∧
    (initialize_index (initialize_index empty_index tx_disk_before)
        tx_disk_after).min_block .transactions = some ⟨0, 4⟩ ∧
    (some (SegmentRangeInclusive.mk 0 3) ≠ some (SegmentRangeInclusive.mk 0 4)) :=
  ⟨rfl, rfl, by decide⟩

/-- The `(tx_end, block_range)` rows a jar listing contributes to the
transaction index, in listing order. -/
def tx_rows
    (ranges : List (SegmentRangeInclusive × Option SegmentRangeInclusive)) :
    List (Nat × SegmentRangeInclusive) :=
  ranges.filterMap (fun p => p.2.map (fun tr => (tr.hi, p.1)))

theorem tx_rows_nil : tx_rows [] = [] := rfl

theorem tx_rows_cons_none (br : SegmentRangeInclusive)
    (tl : List (SegmentRangeInclusive × Option SegmentRangeInclusive)) :
    tx_rows ((br, none) :: tl) = tx_rows tl := by
  simp [tx_rows]

theorem tx_rows_cons_some (br tr : SegmentRangeInclusive)
    (tl : List (SegmentRangeInclusive × Option SegmentRangeInclusive)) :
    tx_rows ((br, some tr) :: tl) = (tr.hi, br) :: tx_rows tl := by
  simp [tx_rows]

theorem tx_rows_append
    (l₁ l₂ : List (SegmentRangeInclusive × Option SegmentRangeInclusive)) :
    tx_rows (l₁ ++ l₂) = tx_rows l₁ ++ tx_rows l₂ := by
  simp [tx_rows]

theorem iter_segment_append (l₁ l₂ : List SegmentHeader) :
    iter_segment (l₁ ++ l₂) = iter_segment l₁ ++ iter_segment l₂ := by
  simp [iter_segment]

/-- Inserting a key above every existing key appends at the end. -/
theorem btree_insert_append (k : Nat) (v : SegmentRangeInclusive)
    (index : List (Nat × SegmentRangeInclusive))
    (h : ∀ p ∈ index, p.1 < k) :
    btree_insert k v index = index ++ [(k, v)] := by
  induction index with
  | nil => rfl
  | cons hd tl ih =>
    obtain ⟨k', v'⟩ := hd
    have hk' : k' < k := h (k', v') (by simp)
    simp only [btree_insert]
    rw [if_neg (by omega), if_neg (by omega)]
    simp [ih (fun p hp => h p (List.mem_cons_of_mem _ hp))]

/-- Folding `tx_index_step` from an accumulator whose keys all sit below the
incoming rows simply appends the rows (in order) to the accumulator. -/
theorem tx_index_fold_some
    (l : List (SegmentRangeInclusive × Option SegmentRangeInclusive)) :
    ∀ index : List (Nat × SegmentRangeInclusive),
    (∀ p ∈ index, ∀ q ∈ tx_rows l, p.1 < q.1) →
    (tx_rows l).Pairwise (fun a b => a.1 < b.1) →
    l.foldl tx_index_step (some index) = some (index ++ tx_rows l) := by
  induction l with
  | nil => intro index _ _; simp [tx_rows]
  | cons hd tl ih =>
    intro index hlt hpw
    obtain ⟨br, txo⟩ := hd
    cases txo with
    | none =>
      rw [tx_rows_cons_none] at hlt hpw
      simpa [tx_index_step, tx_rows_cons_none] using ih index hlt hpw
    | some tr =>
      rw [tx_rows_cons_some] at hlt hpw
      have hins : btree_insert tr.hi br index = index ++ [(tr.hi, br)] :=
        btree_insert_append tr.hi br index
          (fun p hp => hlt p hp (tr.hi, br) (by simp))
      simp only [List.foldl_cons, tx_index_step, hins, tx_rows_cons_some]
      have hpwtl := (List.pairwise_cons.mp hpw).2
      have hhead := (List.pairwise_cons.mp hpw).1
      rw [ih (index ++ [(tr.hi, br)]) ?_ hpwtl]
      · simp
      · intro p hp q hq
        rcases List.mem_append.mp hp with hmem | hmem
        · exact hlt p hmem q (List.mem_cons_of_mem _ hq)
        · have : p = (tr.hi, br) := by simpa using hmem
          subst this
          exact hhead q hq

/-- On a listing whose transaction rows are strictly increasing in `tx_end`,
`build_tx_index` produces exactly those rows (or no map when there are
none). -/
theorem build_tx_index_sorted
    (l : List (SegmentRangeInclusive × Option SegmentRangeInclusive))
    (h : (tx_rows l).Pairwise (fun a b => a.1 < b.1)) :
    build_tx_index l = if tx_rows l = [] then none else some (tx_rows l) := by
  induction l with
  | nil => rfl
  | cons hd tl ih =>
    obtain ⟨br, txo⟩ := hd
    cases txo with
    | none =>
      rw [tx_rows_cons_none] at h ⊢
      simpa [build_tx_index, tx_index_step] using ih h
    | some tr =>
      rw [tx_rows_cons_some] at h ⊢
      have hpwtl := (List.pairwise_cons.mp h).2
      have hhead := (List.pairwise_cons.mp h).1
      simp only [build_tx_index, List.foldl_cons, tx_index_step]
      rw [tx_index_fold_some tl [(tr.hi, br)] ?_ hpwtl]
      · simp
      · intro p hp q hq
        have : p = (tr.hi, br) := by simpa using hp
        subst this
        exact hhead q hq

/-- `find?` over a directory listing whose matching file is last. -/
theorem find_jar_append (fixed : SegmentRangeInclusive)
    (front : List SegmentHeader) (j : SegmentHeader)
    (hf : ∀ x ∈ front, x.expected_block_range ≠ fixed)
    (hj : j.expected_block_range = fixed) :
    (front ++ [j]).find? (fun h => h.expected_block_range == fixed) = some j := by
  induction front with
  | nil => simp [List.find?, hj]
  | cons x xs ih =>
    have hx : (x.expected_block_range == fixed) = false := by
      simpa using hf x (by simp)
    simp only [List.cons_append, List.find?, hx]
    exact ih (fun y hy => hf y (List.mem_cons_of_mem _ hy))

/-- Every transaction-index row of a jar listing comes from a jar carrying
both a block range and a transaction range. -/
theorem mem_tx_rows_iter_segment (l : List SegmentHeader)
    (p : Nat × SegmentRangeInclusive)
    (hp : p ∈ tx_rows (iter_segment l)) :
    ∃ j ∈ l, ∃ tr, j.tx_range = some tr ∧ tr.hi = p.1 ∧
      j.block_range = some p.2 := by
  simp only [tx_rows, List.mem_filterMap] at hp
  obtain ⟨q, hq, hmap⟩ := hp
  simp only [iter_segment, List.mem_filterMap] at hq
  obtain ⟨j, hj, hjq⟩ := hq
  cases hbr : j.block_range with
  | none => rw [hbr] at hjq; simp at hjq
  | some r =>
    rw [hbr] at hjq
    simp only [Option.map_some', Option.some.injEq] at hjq
    subst hjq
    cases htr : j.tx_range with
    | none => simp [htr] at hmap
    | some tr =>
      simp only [htr, Option.map_some', Option.some.injEq] at hmap
      exact ⟨j, hj, tr, htr, by rw [← hmap], by rw [← hmap, hbr]⟩

/-- Claim C3 (amended): consider an `update_index(segment, Some m)` call made
after a commit that only created/replaced the jar at `m`'s fixed range (every
surviving lower jar `front` untouched, every previous jar at or above that
fixed range replaced by the committed jar, which records a block range ending
at `m` and a transaction range). If the in-memory `max_block` and `tx_index`
maps were consistent with the old on-disk headers, then after the call they
are identical to what a fresh `initialize_index` over the new on-disk jar
headers computes — but `update_index` leaves `static_files_min_block` and
`earliest_history_height` untouched, so those two structures are *not*
recomputed and may lag a fresh initialization. -/
theorem update_index_matches_reinit
    (B : Nat) (idx : StaticFileIndex) (diskOld diskNew : Disk)
    (segment : StaticFileSegment) (m : Nat)
    (front tail : List SegmentHeader) (newJar : SegmentHeader)
    (br txr : SegmentRangeInclusive)
    (hNew : diskNew segment = front ++ [newJar])
    (hOldSeg : diskOld segment = front ++ tail)
    (hOther : ∀ s, s ≠ segment → diskNew s = diskOld s)
    (hName : newJar.expected_block_range = find_fixed_range m B)
    (hFrontName : ∀ j ∈ front, j.expected_block_range ≠ find_fixed_range m B)
    (hBr : newJar.block_range = some br)
    (hBrHi : br.hi = m)
    (hTxr : newJar.tx_range = some txr)
    (hFront : ∀ j ∈ front, ∀ r, j.block_range = some r →
      r.lo < (find_fixed_range m B).lo)
    (hTail : ∀ j ∈ tail, ∀ r, j.block_range = some r →
      (find_fixed_range m B).lo ≤ r.lo)
    (hFrontTx : ∀ j ∈ front, ∀ tr, j.tx_range = some tr → tr.hi < txr.hi)
    (hSortedOld : (tx_rows (iter_segment (diskOld segment))).Pairwise
      (fun a b => a.1 < b.1))
    (hIdxMax : ∀ s, idx.max_block s =
      ((iter_segment (diskOld s)).getLast?).map (fun p => p.1.hi))
    (hIdxTx : ∀ s, idx.tx_index s = build_tx_index (iter_segment (diskOld s))) :
    update_index B idx diskNew segment (some m) =
      .ok { min_block := idx.min_block
            max_block := (initialize_index idx diskNew).max_block
            tx_index := (initialize_index idx diskNew).tx_index
            earliest_history_height := idx.earliest_history_height } := by
  have hload : load_jar diskNew segment (find_fixed_range m B) = some newJar := by
    simp only [load_jar, hNew]
    exact find_jar_append _ front newJar hFrontName hName
  have hiterNew : iter_segment (diskNew segment) =
      iter_segment front ++ [(br, some txr)] := by
    rw [hNew, iter_segment_append]
    simp [iter_segment, hBr, hTxr]
  -- the old transaction rows split across `front` and `tail`
  rw [hOldSeg, iter_segment_append, tx_rows_append] at hSortedOld
  have hSortedFront := (List.pairwise_append.mp hSortedOld).1
  have hcross : ∀ a ∈ tx_rows (iter_segment front), a.1 < txr.hi := by
    intro a ha
    obtain ⟨j, hj, tr, htr, hhi, -⟩ := mem_tx_rows_iter_segment front a ha
    rw [← hhi]
    exact hFrontTx j hj tr htr
  have hSortedNew : (tx_rows (iter_segment front) ++ [(txr.hi, br)]).Pairwise
      (fun a b => a.1 < b.1) := by
    rw [List.pairwise_append]
    refine ⟨hSortedFront, List.pairwise_singleton _ _, ?_⟩
    intro a ha b hb
    have : b = (txr.hi, br) := by simpa using hb
    subst this
    exact hcross a ha
  have hRhsTx : build_tx_index (iter_segment (diskNew segment)) =
      some (tx_rows (iter_segment front) ++ [(txr.hi, br)]) := by
    rw [hiterNew, build_tx_index_sorted _ (by
      rw [tx_rows_append]
      simpa [tx_rows] using hSortedNew)]
    rw [tx_rows_append]
    simp only [tx_rows]
    simp
  obtain ⟨imin, imax, itx, iehh⟩ := idx
  simp only [update_index, hload, hTxr, hBr]
  simp only [Except.ok.injEq]
  have hmax : (fun s => if s = segment then some m else imax s) =
      (initialize_index ⟨imin, imax, itx, iehh⟩ diskNew).max_block := by
    funext s
    simp only [initialize_index]
    by_cases hs : s = segment
    · subst hs
      rw [if_pos rfl, hiterNew, List.getLast?_concat]
      simp [hBrHi]
    · rw [if_neg hs]
      have := hIdxMax s
      simp only at this
      rw [this, hOther s hs]
  have htx : (fun s =>
      if s = segment then
        match itx segment with
        | some index =>
          some (btree_insert txr.hi br
            (index.filter (fun p => p.2.lo < (find_fixed_range m B).lo)))
        | none => some [(txr.hi, br)]
      else itx s) =
      (initialize_index ⟨imin, imax, itx, iehh⟩ diskNew).tx_index := by
    funext s
    simp only [initialize_index]
    by_cases hs : s = segment
    · subst hs
      rw [if_pos rfl]
      have hidx := hIdxTx s
      simp only at hidx
      rw [hidx, hOldSeg, iter_segment_append,
        build_tx_index_sorted _ (by rw [tx_rows_append]; exact hSortedOld),
        tx_rows_append, hRhsTx]
      by_cases hemp : tx_rows (iter_segment front) ++ tx_rows (iter_segment tail) = []
      · rw [if_pos hemp]
        have hf0 : tx_rows (iter_segment front) = [] :=
          (List.append_eq_nil.mp hemp).1
        rw [hf0]
        rfl
      · rw [if_neg hemp]
        have hfilterF : (tx_rows (iter_segment front)).filter
            (fun p => p.2.lo < (find_fixed_range m B).lo) =
            tx_rows (iter_segment front) := by
          rw [List.filter_eq_self]
          intro a ha
          obtain ⟨j, hj, tr, -, -, hbrj⟩ := mem_tx_rows_iter_segment front a ha
          simpa using hFront j hj a.2 hbrj
        have hfilterT : (tx_rows (iter_segment tail)).filter
            (fun p => p.2.lo < (find_fixed_range m B).lo) = [] := by
          rw [List.filter_eq_nil_iff]
          intro a ha
          obtain ⟨j, hj, tr, -, -, hbrj⟩ := mem_tx_rows_iter_segment tail a ha
          have := hTail j hj a.2 hbrj
          simp only [decide_eq_true_eq, not_lt]
          omega
        show some (btree_insert txr.hi br
            ((tx_rows (iter_segment front) ++
              tx_rows (iter_segment tail)).filter
              (fun p => p.2.lo < (find_fixed_range m B).lo))) =
          some (tx_rows (iter_segment front) ++ [(txr.hi, br)])
        rw [List.filter_append, hfilterF, hfilterT, List.append_nil]
        rw [btree_insert_append txr.hi br _ hcross]
    · rw [if_neg hs]
      have := hIdxTx s
      simp only at this
      rw [this, hOther s hs]
  exact StaticFileIndex.ext rfl hmax htx rfl

/-- Lower transactions jar untouched by the commit: file `[0, 4]`, full, with
transactions 0-9. -/
def update_front : List SegmentHeader := [⟨⟨0, 4⟩, some ⟨0, 4⟩, some ⟨0, 9⟩⟩]

/-- The pre-commit state of the top jar: file `[5, 9]` holding blocks 5-6 and
transactions 10-12. -/
def update_tail : List SegmentHeader := [⟨⟨5, 9⟩, some ⟨5, 6⟩, some ⟨10, 12⟩⟩]

/-- The committed top jar: file `[5, 9]` now holding blocks 5-7 and
transactions 10-14. -/
def update_new_jar : SegmentHeader := ⟨⟨5, 9⟩, some ⟨5, 7⟩, some ⟨10, 14⟩⟩

/-- Transactions directory before the commit. -/
def update_disk_old : Disk := fun s =>
  if s = .transactions then update_front ++ update_tail else []

/-- Transactions directory after the commit. -/
def update_disk_new : Disk := fun s =>
  if s = .transactions then update_front ++ [update_new_jar] else []

/-- Witness for C3 (amended): with `blocks_per_file = 5`, committing block 7
(transactions 13-14) to the transactions jar `[5, 9]` and calling
`update_index(Transactions, Some 7)` leaves `max_block` and `tx_index` equal
to a fresh `initialize_index` over the new directory, with `min_block` and
`earliest_history_height` untouched. -/
theorem update_index_matches_reinit_witness :
    update_index 5 (initialize_index empty_index update_disk_old)
        update_disk_new .transactions (some 7) =
      .ok { min_block := (initialize_index empty_index update_disk_old).min_block
            max_block :=
              (initialize_index (initialize_index empty_index update_disk_old)
                update_disk_new).max_block
            tx_index :=
              (initialize_index (initialize_index empty_index update_disk_old)
                update_disk_new).tx_index
            earliest_history_height :=
              (initialize_index empty_index
                update_disk_old).earliest_history_height } :=
  update_index_matches_reinit 5 (initialize_index empty_index update_disk_old)
    update_disk_old update_disk_new .transactions 7 update_front update_tail
    update_new_jar ⟨5, 7⟩ ⟨10, 14⟩
    rfl rfl
    (fun s hs => by cases s <;> first | exact absurd rfl hs | rfl)
    (by decide) (by decide) rfl rfl rfl
    (by
      intro j hj r hr
      simp only [update_front, List.mem_singleton] at hj
      subst hj
      simp only [Option.some.injEq] at hr
      subst hr
      decide)
    (by
      intro j hj r hr
      simp only [update_tail, List.mem_singleton] at hj
      subst hj
      simp only [Option.some.injEq] at hr
      subst hr
      decide)
    (by
      intro j hj tr htr
      simp only [update_front, List.mem_singleton] at hj
      subst hj
      simp only [Option.some.injEq] at htr
      subst htr
      decide)
    (by decide) (fun _ => rfl) (fun _ => rfl)

/-- `StaticFileProvider::delete_jar` (manager.rs lines 493-515): obtains the
jar named after `find_fixed_range(block)` (failing like `NippyJar::load` when
no such file exists), deletes its files from disk, and re-initializes the
index so all remaining files are tracked. -/
def delete_jar (blocks_per_file : Nat) (idx : StaticFileIndex) (disk : Disk)
    (segment : StaticFileSegment) (block : Nat) :
    Except ProviderErr (StaticFileIndex × Disk) :=
  let fixed_block_range := find_fixed_range block blocks_per_file
  match load_jar disk segment fixed_block_range with
  | none => .error .other
  | some _ =>
    let disk' : Disk := fun s =>
      if s = segment then
        (disk s).filter (fun h => ¬(h.expected_block_range = fixed_block_range))
      else disk s
    .ok (initialize_index idx disk', disk')

/-- The `loop` of `delete_transactions_below` (manager.rs lines 461-485):
each iteration reads the lowest transactions static-file block from the index
and deletes that jar. The source loop is unbounded; `fuel` only truncates the
unfolding and the theorems always supply enough fuel for the loop to reach
its exit condition (`fuelExhausted` never occurs in a proved execution). -/
def delete_transactions_below_go (blocks_per_file : Nat) :
    Nat → StaticFileIndex → Disk → Nat →
      Except ProviderErr (StaticFileIndex × Disk)
  | 0, _, _, _ => .error .fuelExhausted
  | fuel + 1, idx, disk, block =>
    match idx.min_block .transactions with
    | none => .ok (idx, disk)
    | some lowest_range =>
      let block_height := lowest_range.hi
      if block_height ≥ block then .ok (idx, disk)
      else
        match delete_jar blocks_per_file idx disk .transactions block_height with
        | .error e => .error e
        | .ok (idx', disk') =>
          delete_transactions_below_go blocks_per_file fuel idx' disk' block

/-- `StaticFileProvider::delete_transactions_below` (manager.rs lines
448-486): nothing to delete when `block = 0`, otherwise run the deletion
loop. -/
def delete_transactions_below (blocks_per_file fuel : Nat)
    (idx : StaticFileIndex) (disk : Disk) (block : Nat) :
    Except ProviderErr (StaticFileIndex × Disk) :=
  if block = 0 then .ok (idx, disk)
  else delete_transactions_below_go blocks_per_file fuel idx disk block

/-- A transactions directory holding a single partially-filled jar: file
`[0, 4]` (with `blocks_per_file = 5`) currently containing blocks 0-3 only. -/
def expiry_disk : Disk := fun s =>
  if s = .transactions then [⟨⟨0, 4⟩, some ⟨0, 3⟩, some ⟨0, 7⟩⟩] else []

/-- Counterexample for claim C8. With `blocks_per_file = 5` and a single
transactions jar `[0, 4]` that is only filled up to block 3,
`delete_transactions_below 4` deletes that jar (its highest *block* 3 is
below 4), even though the jar's *fixed range* `[0, 4]` ends at `4 ≥ 4` and
contains block 4 — contradicting both "deletes exactly those jars whose fixed
block range ends strictly below b" and "never deletes the jar whose fixed
range contains b". -/
theorem delete_transactions_below_partial_jar_counterexample :
    (delete_transactions_below 5 2 (initialize_index empty_index expiry_disk)
        expiry_disk 4).map (fun p => p.2 .transactions) = .ok [] ∧
    expiry_disk .transactions = [⟨⟨0, 4⟩, some ⟨0, 3⟩, some ⟨0, 7⟩⟩] ∧
    find_fixed_range 4 5 = ⟨0, 4⟩ ∧
    (4 : Nat) ≤ (SegmentRangeInclusive.mk 0 4).hi :=
  ⟨rfl, rfl, by decide, by decide⟩

/-- For a `B`-aligned start, the fixed range of the range's last block is the
range itself. -/
theorem find_fixed_range_of_aligned_hi (lo B : Nat) (hB : 0 < B)
    (h : lo % B = 0) :
    find_fixed_range (lo + B - 1) B = find_fixed_range lo B := by
  obtain ⟨q, rfl⟩ : ∃ q, lo = q * B := by
    refine ⟨lo / B, ?_⟩
    have := Nat.div_add_mod' lo B
    omega
  have h1 : (q * B) % B = 0 := by
    rw [Nat.mul_comm]
    exact Nat.mul_mod_right B q
  have h2 : (q * B + B - 1) % B = B - 1 := by
    have he : q * B + B - 1 = q * B + (B - 1) := by omega
    rw [he, Nat.mul_comm, Nat.mul_add_mod, Nat.mod_eq_of_lt (by omega)]
  simp only [find_fixed_range, h1, h2, SegmentRangeInclusive.mk.injEq]
  omega

/-- Deletion-loop invariant: when every transactions jar is full (its block
range equals its fixed range), aligned to its fixed range, and the listing is
sorted, and the index's lowest-range entry matches the listing, the loop
deletes exactly the leading jars whose range ends below `block` and leaves
the other segments' files alone. -/
theorem delete_transactions_below_go_spec (B : Nat) (hB : 0 < B)
    (block : Nat) :
    ∀ l : List SegmentHeader, ∀ fuel : Nat, ∀ idx : StaticFileIndex,
    ∀ disk : Disk,
    disk .transactions = l →
    (∀ j ∈ l, j.block_range = some j.expected_block_range) →
    (∀ j ∈ l, j.expected_block_range =
      find_fixed_range j.expected_block_range.lo B) →
    l.Pairwise (fun x y =>
      x.expected_block_range.hi < y.expected_block_range.lo) →
    idx.min_block .transactions = ((iter_segment l).head?).map Prod.fst →
    l.length < fuel →
    (delete_transactions_below_go B fuel idx disk block).map Prod.snd =
      .ok (fun s => if s = .transactions then
          l.filter (fun j => block ≤ j.expected_block_range.hi)
        else disk s) := by
  intro l
  induction l with
  | nil =>
    intro fuel idx disk hdisk hfull halign hsorted hmin hfuel
    obtain ⟨fuel, rfl⟩ : ∃ f, fuel = f + 1 := ⟨fuel - 1, by omega⟩
    simp only [iter_segment, List.filterMap_nil, List.head?_nil,
      Option.map_none'] at hmin
    simp only [delete_transactions_below_go, hmin]
    show Except.ok disk = _
    refine congrArg Except.ok ?_
    funext s
    by_cases hs : s = .transactions
    · subst hs
      rw [if_pos rfl, List.filter_nil, hdisk]
    · rw [if_neg hs]
  | cons j rest ih =>
    intro fuel idx disk hdisk hfull halign hsorted hmin hfuel
    obtain ⟨fuel, rfl⟩ : ∃ f, fuel = f + 1 := ⟨fuel - 1, by omega⟩
    have hjfull := hfull j (by simp)
    have hjalign := halign j (by simp)
    have hiterl : iter_segment (j :: rest) =
        (j.expected_block_range, j.tx_range) :: iter_segment rest := by
      simp [iter_segment, hjfull]
    have hlo0 : j.expected_block_range.lo % B = 0 := by
      have := congrArg SegmentRangeInclusive.lo hjalign
      simp only [find_fixed_range] at this
      have hle := Nat.mod_le j.expected_block_range.lo B
      omega
    have hjhi : j.expected_block_range.hi =
        j.expected_block_range.lo + B - 1 := by
      have := congrArg SegmentRangeInclusive.hi hjalign
      simp only [find_fixed_range] at this
      omega
    have hrestlohi : ∀ x ∈ rest,
        x.expected_block_range.lo ≤ x.expected_block_range.hi := by
      intro x hx
      have hxa := halign x (List.mem_cons_of_mem _ hx)
      have h2 := congrArg SegmentRangeInclusive.hi hxa
      have h1 := congrArg SegmentRangeInclusive.lo hxa
      simp only [find_fixed_range] at h1 h2
      have := Nat.mod_le x.expected_block_range.lo B
      omega
    have hsj := (List.pairwise_cons.mp hsorted).1
    have hsrest := (List.pairwise_cons.mp hsorted).2
    rw [hiterl] at hmin
    simp only [List.head?_cons, Option.map_some'] at hmin
    simp only [delete_transactions_below_go, hmin]
    by_cases hge : j.expected_block_range.hi ≥ block
    · rw [if_pos hge]
      have hkeep : (j :: rest).filter
          (fun x => block ≤ x.expected_block_range.hi) = j :: rest := by
        rw [List.filter_eq_self]
        intro x hx
        rcases List.mem_cons.mp hx with rfl | hx'
        · simpa using hge
        · have h1 := hsj x hx'
          have h2 := hrestlohi x hx'
          simp only [decide_eq_true_eq]
          omega
      rw [hkeep]
      show Except.ok disk = _
      refine congrArg Except.ok ?_
      funext s
      by_cases hs : s = .transactions
      · subst hs
        rw [if_pos rfl, hdisk]
      · rw [if_neg hs]
    · rw [if_neg hge]
      have hfixed : find_fixed_range j.expected_block_range.hi B =
          j.expected_block_range := by
        rw [hjhi, find_fixed_range_of_aligned_hi _ _ hB hlo0]
        exact hjalign.symm
      have hload : load_jar disk .transactions
          (find_fixed_range j.expected_block_range.hi B) = some j := by
        simp only [load_jar, hdisk, hfixed]
        exact List.find?_cons_of_pos _ (by simp)
      have hfilterdrop : (j :: rest).filter
          (fun h => ¬(h.expected_block_range = j.expected_block_range)) =
          rest := by
        rw [List.filter_cons_of_neg (by simp)]
        rw [List.filter_eq_self]
        intro x hx
        have h1 := hsj x hx
        simp only [decide_not, Bool.not_eq_true', decide_eq_false_iff_not]
        intro hcon
        rw [hcon] at h1
        have := hjhi
        omega
      rw [hfixed] at hload
      simp only [delete_jar, hfixed, hload]
      rw [ih fuel (initialize_index idx _) _ ?_ ?_ ?_ hsrest ?_ (by
        simp only [List.length_cons] at hfuel
        omega)]
      · refine congrArg Except.ok ?_
        funext s
        by_cases hs : s = .transactions
        · subst hs
          rw [if_pos rfl, if_pos rfl,
            List.filter_cons_of_neg (by
              simp only [decide_eq_true_eq, Bool.not_eq_true', decide_eq_false_iff_not]
              omega)]
        · rw [if_neg hs, if_neg hs, if_neg hs]
      · rw [if_pos rfl, hdisk]
        exact hfilterdrop
      · intro x hx
        exact hfull x (List.mem_cons_of_mem _ hx)
      · intro x hx
        exact halign x (List.mem_cons_of_mem _ hx)
      · simp only [initialize_index, if_true]
        rw [hdisk, hfilterdrop]

/-- Claim C8 (amended): `delete_transactions_below(b)` is a no-op when
`b = 0`; otherwise it repeatedly removes the lowest transaction jar while
that jar's highest block is less than `b`. When every transactions jar is
full — its recorded block range coinciding with its fixed range — this
deletes exactly those jars whose fixed block range ends strictly below `b`
and never the jar whose fixed range contains `b`. (A partially filled jar
whose highest block is below `b` is deleted even when its fixed range
reaches `b`.) -/
theorem delete_transactions_below_spec (B fuel b : Nat) (hB : 0 < B)
    (idx : StaticFileIndex) (disk : Disk)
    (hfull : ∀ j ∈ disk .transactions,
      j.block_range = some j.expected_block_range)
    (halign : ∀ j ∈ disk .transactions, j.expected_block_range =
      find_fixed_range j.expected_block_range.lo B)
    (hsorted : (disk .transactions).Pairwise (fun x y =>
      x.expected_block_range.hi < y.expected_block_range.lo))
    (hmin : idx.min_block .transactions =
      ((iter_segment (disk .transactions)).head?).map Prod.fst)
    (hfuel : (disk .transactions).length < fuel) :
    (b = 0 → delete_transactions_below B fuel idx disk b = .ok (idx, disk)) ∧
    (delete_transactions_below B fuel idx disk b).map Prod.snd =
      .ok (fun s => if s = .transactions then
          (disk .transactions).filter
            (fun j => b ≤ j.expected_block_range.hi)
        else disk s) := by
  constructor
  · intro h0
    simp [delete_transactions_below, h0]
  · by_cases h0 : b = 0
    · subst h0
      simp only [delete_transactions_below, if_pos rfl]
      show Except.ok disk = _
      refine congrArg Except.ok ?_
      funext s
      by_cases hs : s = .transactions
      · subst hs
        rw [if_pos rfl, List.filter_eq_self.mpr (by intro x hx; simp)]
      · rw [if_neg hs]
    · simp only [delete_transactions_below, if_neg h0]
      exact delete_transactions_below_go_spec B hB b (disk .transactions)
        fuel idx disk rfl hfull halign hsorted hmin hfuel

/-- A transactions directory with two full jars `[0, 4]` and `[5, 9]`
(`blocks_per_file = 5`). -/
def expiry_disk_full : Disk := fun s =>
  if s = .transactions then
    [⟨⟨0, 4⟩, some ⟨0, 4⟩, some ⟨0, 9⟩⟩, ⟨⟨5, 9⟩, some ⟨5, 9⟩, some ⟨10, 19⟩⟩]
  else []

/-- Witness for C8 (amended): deleting transactions below block 8 removes
exactly the full jar `[0, 4]` and keeps the jar `[5, 9]` whose fixed range
contains 8. -/
theorem delete_transactions_below_spec_witness :
    ((8 : Nat) = 0 →
      delete_transactions_below 5 3
        (initialize_index empty_index expiry_disk_full) expiry_disk_full 8 =
        .ok (initialize_index empty_index expiry_disk_full,
          expiry_disk_full)) ∧
    (delete_transactions_below 5 3
        (initialize_index empty_index expiry_disk_full) expiry_disk_full
        8).map Prod.snd =
      .ok (fun s => if s = .transactions then
          (expiry_disk_full .transactions).filter
            (fun j => 8 ≤ j.expected_block_range.hi)
        else expiry_disk_full s) :=
  delete_transactions_below_spec 5 3 8 (by decide)
    (initialize_index empty_index expiry_disk_full) expiry_disk_full
    (by decide) (by decide) (by decide) rfl (by decide)

/-- Modelled from the spec: the per-jar cursor of a block-based segment
(`StaticFileCursor::get_one` behind `StaticFileJarProvider`, not under
`src/`) returns the row when the requested block lies in the jar's covered
block range and `None` otherwise (spec 4.2); the row payload is represented
by the requested number. -/
def cursor_get_block_row (jar : SegmentHeader) (n : Nat) : Option Nat :=
  match jar.block_range with
  | some r => if r.lo ≤ n ∧ n ≤ r.hi then some n else none
  | none => none

/-- Modelled from the spec: the per-jar cursor row lookup of a
transaction-based segment, over the jar's covered transaction range. -/
def cursor_get_tx_row (jar : SegmentHeader) (n : Nat) : Option Nat :=
  match jar.tx_range with
  | some r => if r.lo ≤ n ∧ n ≤ r.hi then some n else none
  | none => none

/-- `StaticFileProvider::get_segment_ranges_from_block` (manager.rs lines
547-557): the fixed range of `block` when the segment's highest on-disk
block is at least `block`, `None` otherwise. -/
def get_segment_ranges_from_block (blocks_per_file : Nat)
    (idx : StaticFileIndex) (segment : StaticFileSegment) (block : Nat) :
    Option SegmentRangeInclusive :=
  ((idx.max_block segment).filter (fun mx => mx ≥ block)).map
    (fun _ => find_fixed_range block blocks_per_file)

/-- `get_segment_provider` (manager.rs lines 403-435) with `path = None`:
resolve the block range through `fn_range`, then return the loaded jar —
`Ok(None)` when the index yields no range, `ProviderError::other` when the
jar file fails to load. -/
def get_segment_provider (disk : Disk) (segment : StaticFileSegment)
    (fn_range : Option SegmentRangeInclusive) :
    Except ProviderErr (Option SegmentHeader) :=
  match fn_range with
  | some block_range =>
    match load_jar disk segment block_range with
    | some jar => .ok (some jar)
    | none => .error .other
  | none => .ok none

/-- `get_segment_provider_from_block` (manager.rs lines 371-383):
`ok_or(MissingStaticFileBlock)`. -/
def get_segment_provider_from_block (blocks_per_file : Nat)
    (idx : StaticFileIndex) (disk : Disk) (segment : StaticFileSegment)
    (block : Nat) : Except ProviderErr SegmentHeader :=
  match get_segment_provider disk segment
      (get_segment_ranges_from_block blocks_per_file idx segment block) with
  | .error e => .error e
  | .ok (some provider) => .ok provider
  | .ok none => .error (.missingStaticFileBlock segment block)

/-- `get_segment_provider_from_transaction` (manager.rs lines 386-398):
`ok_or(MissingStaticFileTx)`. -/
def get_segment_provider_from_transaction (blocks_per_file : Nat)
    (idx : StaticFileIndex) (disk : Disk) (segment : StaticFileSegment)
    (tx : Nat) : Except ProviderErr SegmentHeader :=
  match get_segment_provider disk segment
      (get_segment_ranges_from_transaction blocks_per_file idx.tx_index
        segment tx) with
  | .error e => .error e
  | .ok (some provider) => .ok provider
  | .ok none => .error (.missingStaticFileTx segment tx)

/-- `HeaderProvider::header_by_number` for the static-file provider
(manager.rs lines 1389-1399): resolve the headers jar for the block, read
the row, and convert a `MissingStaticFileBlock` error into `Ok(None)`. -/
def header_by_number (blocks_per_file : Nat) (idx : StaticFileIndex)
    (disk : Disk) (num : Nat) : Except ProviderErr (Option Nat) :=
  match get_segment_provider_from_block blocks_per_file idx disk
      .headers num with
  | .ok provider => .ok (cursor_get_block_row provider num)
  | .error (.missingStaticFileBlock _ _) => .ok none
  | .error e => .error e

/-- `BlockBodyIndicesProvider::block_body_indices` (manager.rs lines
1807-1817), same shape over the `BlockMeta` segment. -/
def block_body_indices (blocks_per_file : Nat) (idx : StaticFileIndex)
    (disk : Disk) (num : Nat) : Except ProviderErr (Option Nat) :=
  match get_segment_provider_from_block blocks_per_file idx disk
      .blockMeta num with
  | .ok provider => .ok (cursor_get_block_row provider num)
  | .error (.missingStaticFileBlock _ _) => .ok none
  | .error e => .error e

/-- `TransactionsProvider::transaction_by_id` (manager.rs lines 1620-1630):
`MissingStaticFileTx` converts to `Ok(None)`. -/
def transaction_by_id (blocks_per_file : Nat) (idx : StaticFileIndex)
    (disk : Disk) (num : Nat) : Except ProviderErr (Option Nat) :=
  match get_segment_provider_from_transaction blocks_per_file idx disk
      .transactions num with
  | .ok provider => .ok (cursor_get_tx_row provider num)
  | .error (.missingStaticFileTx _ _) => .ok none
  | .error e => .error e

/-- `ReceiptProvider::receipt` (manager.rs lines 1491-1501), same shape over
the receipts segment. -/
def receipt (blocks_per_file : Nat) (idx : StaticFileIndex)
    (disk : Disk) (num : Nat) : Except ProviderErr (Option Nat) :=
  match get_segment_provider_from_transaction blocks_per_file idx disk
      .receipts num with
  | .ok provider => .ok (cursor_get_tx_row provider num)
  | .error (.missingStaticFileTx _ _) => .ok none
  | .error e => .error e

/-- A headers directory whose lowest jar `[0, 4]` was deleted: only the jar
`[5, 9]` remains on disk, yet the index's highest headers block is 9. -/
def gap_disk : Disk := fun s =>
  if s = .headers then [⟨⟨5, 9⟩, some ⟨5, 9⟩, none⟩] else []

/-- Counterexample for claim C7. Block 2 lies outside all on-disk ranges of
the headers segment (only `[5, 9]` is on disk), but because the index's
highest block (9) is at least 2, `header_by_number(2)` resolves the fixed
range `[0, 4]` and tries to load the deleted jar: the result is the jar-load
`ProviderError::other`, not `Ok(None)`. -/
theorem point_query_deleted_jar_counterexample :
    header_by_number 5 (initialize_index empty_index gap_disk) gap_disk 2 =
      .error .other ∧
    (∀ j ∈ gap_disk .headers, ∀ r, j.block_range = some r →
      ¬(r.lo ≤ 2 ∧ 2 ≤ r.hi)) := by
  constructor
  · rfl
  · intro j hj r hr
    simp only [gap_disk, if_true, List.mem_singleton] at hj
    subst hj
    simp only [Option.some.injEq] at hr
    subst hr
    decide

/-- When every indexed `tx_end` sits below the requested transaction, the
reverse walk finds nothing. -/
theorem tx_ranges_walk_all_below (B n : Nat)
    (entries : List (Nat × SegmentRangeInclusive))
    (h : ∀ e ∈ entries, e.1 < n) :
    tx_ranges_walk B n entries.reverse = none := by
  cases hrev : entries.reverse with
  | nil => rfl
  | cons hd rest =>
    obtain ⟨k, r⟩ := hd
    have hmem : (k, r) ∈ entries := List.mem_reverse.mp (by rw [hrev]; simp)
    have hk := h _ hmem
    simp only [tx_ranges_walk]
    rw [if_pos (by simpa using hk)]

/-- Claim C7 (amended): for every requested number `n` strictly above the
segment's highest indexed block/transaction — in particular when the segment
has no static files at all — the point queries `header_by_number`,
`block_body_indices`, `transaction_by_id` and `receipt` return `Ok(None)`:
the internal `MissingStaticFileBlock` / `MissingStaticFileTx` error is
converted to `None`. (For a number *below* the lowest on-disk range whose
jar was deleted, the block-based queries instead surface the jar-load
error.) -/
theorem point_queries_above_index_none (blocks_per_file : Nat)
    (idx : StaticFileIndex) (disk : Disk) (n : Nat)
    (hH : ∀ mx, idx.max_block .headers = some mx → mx < n)
    (hBM : ∀ mx, idx.max_block .blockMeta = some mx → mx < n)
    (hT : ∀ entries, idx.tx_index .transactions = some entries →
      ∀ e ∈ entries, e.1 < n)
    (hR : ∀ entries, idx.tx_index .receipts = some entries →
      ∀ e ∈ entries, e.1 < n) :
    header_by_number blocks_per_file idx disk n = .ok none ∧
    block_body_indices blocks_per_file idx disk n = .ok none ∧
    transaction_by_id blocks_per_file idx disk n = .ok none ∧
    receipt blocks_per_file idx disk n = .ok none := by
  have hblock : ∀ segment, (∀ mx, idx.max_block segment = some mx → mx < n) →
      get_segment_ranges_from_block blocks_per_file idx segment n = none := by
    intro segment hseg
    simp only [get_segment_ranges_from_block]
    cases hmx : idx.max_block segment with
    | none => rfl
    | some mx =>
      have := hseg mx hmx
      simp [Option.filter]
      omega
  have htx : ∀ segment, (∀ entries, idx.tx_index segment = some entries →
      ∀ e ∈ entries, e.1 < n) →
      get_segment_ranges_from_transaction blocks_per_file idx.tx_index
        segment n = none := by
    intro segment hseg
    simp only [get_segment_ranges_from_transaction]
    cases hidx : idx.tx_index segment with
    | none => rfl
    | some entries => exact tx_ranges_walk_all_below _ _ _ (hseg entries hidx)
  refine ⟨?_, ?_, ?_, ?_⟩
  · simp only [header_by_number, get_segment_provider_from_block,
      hblock .headers hH, get_segment_provider]
  · simp only [block_body_indices, get_segment_provider_from_block,
      hblock .blockMeta hBM, get_segment_provider]
  · simp only [transaction_by_id, get_segment_provider_from_transaction,
      htx .transactions hT, get_segment_provider]
  · simp only [receipt, get_segment_provider_from_transaction,
      htx .receipts hR, get_segment_provider]

/-- Witness for C7 (amended): on an empty directory with an empty index all
four point queries at number 3 return `Ok(None)`. -/
theorem point_queries_above_index_none_witness :
    header_by_number 5 empty_index (fun _ => []) 3 = .ok none ∧
    block_body_indices 5 empty_index (fun _ => []) 3 = .ok none ∧
    transaction_by_id 5 empty_index (fun _ => []) 3 = .ok none ∧
    receipt 5 empty_index (fun _ => []) 3 = .ok none :=
  point_queries_above_index_none 5 empty_index (fun _ => []) 3
    (fun mx h => by cases h) (fun mx h => by cases h)
    (fun entries h => by cases h) (fun entries h => by cases h)

/-- Access mode on a static file provider, RO/RW (manager.rs lines 62-82). -/
inductive StaticFileAccess where
  | RO
  | RW
  deriving DecidableEq, Repr

/-- `StaticFileAccess::is_read_only`. -/
def StaticFileAccess.is_read_only : StaticFileAccess → Bool
  | .RO => true
  | .RW => false

/-- The provider state visible to `get_writer`: the access mode, the
in-memory index, the on-disk files, and the per-segment writer registry
(`StaticFileWriters`, modelled from the spec as the set of segments that
already have an open writer). -/
structure ProviderState where
  access : StaticFileAccess
  idx : StaticFileIndex
  disk : Disk
  writers : List StaticFileSegment

/-- `StaticFileWriter::get_writer` (manager.rs lines 1345-1358): read-only
access is rejected up front with `ReadOnlyStaticFileAccess`; otherwise
`writers.get_or_create` hands out the existing per-segment writer or
registers a new one (modelled from the spec: the registry returns the
already-open handle rather than creating a second writer). The result pairs
the writer's segment with the possibly extended state. -/
def get_writer (st : ProviderState) (block : Nat)
    (segment : StaticFileSegment) :
    Except ProviderErr (StaticFileSegment × ProviderState) :=
  if st.access.is_read_only then .error .readOnlyStaticFileAccess
  else if segment ∈ st.writers then .ok (segment, st)
  else .ok (segment, { st with writers := segment :: st.writers })

/-- `StaticFileWriter::latest_writer` (manager.rs lines 1360-1365):
delegates to `get_writer` at the segment's highest static-file block
(default 0 when the segment has no file). -/
def latest_writer (st : ProviderState) (segment : StaticFileSegment) :
    Except ProviderErr (StaticFileSegment × ProviderState) :=
  get_writer st ((st.idx.max_block segment).getD 0) segment

/-- Claim C10: on a provider constructed read-only, every `get_writer` call —
and `latest_writer`, which delegates to it — returns
`Err(ReadOnlyStaticFileAccess)`; the guard fires before any writer is
created, so the error carries no successor state: the index maps, the jar
files and the writer registry are untouched. -/
theorem get_writer_read_only (st : ProviderState) (block : Nat)
    (segment : StaticFileSegment) (h : st.access = .RO) :
    get_writer st block segment = .error .readOnlyStaticFileAccess ∧
    latest_writer st segment = .error .readOnlyStaticFileAccess := by
  constructor <;>
    simp [get_writer, latest_writer, h, StaticFileAccess.is_read_only]

/-- Witness for C10: a concrete read-only provider rejects both writer
entry points. -/
theorem get_writer_read_only_witness :
    get_writer ⟨.RO, empty_index, fun _ => [], []⟩ 7 .headers =
      .error .readOnlyStaticFileAccess ∧
    latest_writer ⟨.RO, empty_index, fun _ => [], []⟩ .headers =
      .error .readOnlyStaticFileAccess :=
  get_writer_read_only ⟨.RO, empty_index, fun _ => [], []⟩ 7 .headers rfl
